import Mathlib

/-!
Verification of the crawling / structured-extraction pipeline of
`services/data_scraper.py`.

The embedding is shallow: URLs are structures carrying the components that
`urllib.parse.urlparse` exposes, pages and classifier responses are supplied
by explicit environment functions, and the crawl loop is a well-founded
recursion over the frontier queue and the remaining page budget, mirroring
the `while` loop of `crawl_and_scrape_site` line by line.  SQLite's
`caregiver_actions` table is a list of natural-key rows; `INSERT OR IGNORE`
under the UNIQUE constraint inserts a row exactly when its key triple is not
yet present.
-/

/-- URL components as produced by `urllib.parse.urlparse`: scheme, netloc
(host), path, query, fragment.  (`params` is omitted; it never matters to the
scraper.) -/
structure Url where
  scheme : String
  netloc : String
  path : String
  query : String
  fragment : String
deriving DecidableEq, Repr

/-- String form of a URL, as used for Python's substring tests on a joined
URL (`pattern in joined_url`, `link_keyword in link`). -/
def urlString (u : Url) : String :=
  u.scheme ++ "://" ++ u.netloc ++ u.path
    ++ (if u.query = "" then "" else "?" ++ u.query)
    ++ (if u.fragment = "" then "" else "#" ++ u.fragment)

/-- Checks whether the list `p` is a contiguous sublist of `s` (Python's
substring operator `in`). -/
def substrAux (p : List Char) : List Char → Bool
  | [] => p.isEmpty
  | c :: rest => p.isPrefixOf (c :: rest) || substrAux p rest

/-- Python's `p in s` substring test on strings. -/
def substrOf (p s : String) : Bool :=
  substrAux p.toList s.toList

/-- Python's `s.startswith(pre)` (defined over the character lists so that
concrete runs evaluate by kernel reduction). -/
def strStartsWith (s pre : String) : Bool :=
  pre.toList.isPrefixOf s.toList

/-- An href attribute of an anchor: either a reference without scheme/netloc
(resolved against the page URL) or an absolute URL. -/
inductive Href where
  | rel (path query fragment : String)
  | abs (u : Url)
deriving DecidableEq, Repr

/-- Model of `urllib.parse.urljoin(base, href)` at the granularity the
scraper depends on: an absolute href is returned as is; a relative href
inherits the base's scheme and netloc; the empty href returns the base
unchanged (CPython's early return); a query-only href keeps the base path.
Relative-path dot-segment merging is not modelled (the crawler only ever
joins hrefs against absolute http URLs, and no claim depends on path
merging). -/
def urljoin (base : Url) : Href → Url
  | .abs u => u
  | .rel p q f =>
    if p = "" then
      if q = "" then
        if f = "" then base else { base with fragment := f }
      else { base with query := q, fragment := f }
    else { scheme := base.scheme, netloc := base.netloc, path := p, query := q, fragment := f }

/-- The crawl loop's normalisation `urljoin(current_url, urlparse(current_url).path)`
(line 231).  Because CPython's `urljoin(base, "")` returns `base` unchanged,
a URL with an empty path keeps its query and fragment; otherwise the result
is scheme://netloc/path with query and fragment dropped. -/
def normalizeUrl (u : Url) : Url :=
  if u.path = "" then u
  else { scheme := u.scheme, netloc := u.netloc, path := u.path, query := "", fragment := "" }

/-- Modelled from the spec: the spec's notion of a normalized URL, "the URL
with query string and fragment stripped and path preserved", used to compare
the code's dedup key against the specified one. -/
def specNormalize (u : Url) : Url :=
  { scheme := u.scheme, netloc := u.netloc, path := u.path, query := "", fragment := "" }

/-- The ignore patterns of `fetch_page_content_and_links` (lines 128-130). -/
def ignore_patterns : List String :=
  ["Special:", "action=edit", "action=history", "returnto=", "#"]

/-- Line 137: a joined URL is skipped when any ignore pattern occurs in its
string form. -/
def linkIgnored (joined_url : Url) : Bool :=
  ignore_patterns.any fun pat => substrOf pat (urlString joined_url)

/-- Lines 137-141: a joined link survives when no ignore pattern matches and
its netloc equals the current page's netloc. -/
def keepLink (page : Url) (joined_url : Url) : Bool :=
  !(linkIgnored joined_url) && (joined_url.netloc == page.netloc)

/-- Lines 125-141: resolve every anchor's href against the page URL and keep
the surviving links in document order. -/
def extractLinks (page : Url) (anchors : List Href) : List Url :=
  (anchors.map (urljoin page)).filter (keepLink page)

/-- Outcome of a DOM navigation for one URL: the rendered page (extracted
main-content text plus anchor hrefs), a Selenium timeout, or any other
Selenium exception with its message. -/
inductive DomFetch where
  | ok (content : String) (anchors : List Href)
  | timeout
  | failure (msg : String)
deriving Repr

/-- Outcome of an OCR fetch for one URL: the accumulated OCR text, or an
uncaught exception raised while navigating / screenshotting. -/
inductive OcrFetch where
  | ok (text : String)
  | raises (msg : String)
deriving Repr

/-- Model of `fetch_page_content_and_links` (lines 110-173): on success returns the
extracted text and the filtered links; a `TimeoutException` is caught and
becomes an "Error:"-prefixed string with no links (line 171); any other
exception is caught and becomes an "An error occurred with Selenium..."
string with no links (line 173).  The selector cascade only shapes the text,
so the environment supplies the extracted text directly. -/
def fetch_page_content_and_links (dom : Url → DomFetch) (url : Url) : String × List Url :=
  match dom url with
  | .ok content anchors => (content, extractLinks url anchors)
  | .timeout => ("Error: Timed out waiting for page to load on " ++ urlString url, [])
  | .failure m => ("An error occurred with Selenium on " ++ urlString url ++ ": " ++ m, [])

/-- Pydantic model of lines 77-83.  `outcome_rating : int` carries only a
description ("A rating of the outcome from 1 to 5"); the field declares no
`ge`/`le` constraint. -/
structure CaregiverActionLog where
  action_type : String
  communication_style : String
  outcome_rating : Int
deriving DecidableEq, Repr

/-- A JSON scalar as it appears in a parsed classifier response record. -/
inductive JsonVal where
  | str (s : String)
  | num (n : Int)
deriving DecidableEq, Repr

/-- First value bound to a key in a JSON object (a parsed record). -/
def lookupKey (k : String) : List (String × JsonVal) → Option JsonVal
  | [] => none
  | (k2, v) :: rest => if k2 = k then some v else lookupKey k rest

/-- Pydantic validation of one parsed record, `CaregiverActionLog(**item)`.
Each declared field must be present with the declared type; extra keys are
ignored; no range check is applied to `outcome_rating` (the 1..5 bound lives
only in the field description).  A missing or mistyped field raises
`ValidationError` (a `ValueError`), modelled as `none`. -/
def validateLog (item : List (String × JsonVal)) : Option CaregiverActionLog :=
  match lookupKey "action_type" item,
        lookupKey "communication_style" item,
        lookupKey "outcome_rating" item with
  | some (.str a), some (.str c), some (.num r) => some ⟨a, c, r⟩
  | _, _, _ => none

/-- Line 337: `[CaregiverActionLog(**item) for item in data]` — the whole
comprehension fails (raising the first item's `ValidationError`) when any
item fails validation. -/
def validateAll : List (List (String × JsonVal)) → Option (List CaregiverActionLog)
  | [] => some []
  | item :: rest =>
    match validateLog item, validateAll rest with
    | some log, some logs => some (log :: logs)
    | _, _ => none

/-- Outcome of one `model.generate_content` call plus the subsequent
response handling, at the granularity of the except-arms of
`extract_structured_data`: a `ResourceExhausted` exception, a `NotFound`
exception, a response with no candidates, a `ValueError` from
`response.text` (safety block), an empty cleaned text, text that
`json.loads` rejects, or a successfully parsed JSON list of objects. -/
inductive GenOutcome where
  | resourceExhausted
  | notFound
  | noCandidates
  | safetyBlock
  | emptyText
  | badJson
  | jsonList (items : List (List (String × JsonVal)))
deriving Repr

/-- Result of `extract_structured_data`: the returned records, the number of
`generate_content` attempts performed, and the `time.sleep` delays taken (in
seconds, in order). -/
structure ExtractResult where
  logs : List CaregiverActionLog
  attempts : Nat
  sleeps : List Nat
deriving DecidableEq, Repr

/-- The retry loop of `extract_structured_data` (lines 321-358): up to
`remaining` further attempts; `ResourceExhausted` sleeps `delay` seconds,
doubles the delay and retries; every other arm returns immediately — `[]`
except when the response parses and every record validates.  Exhausting the
retries returns `[]` (line 358). -/
def runExtract (gen : Nat → GenOutcome) (attempt remaining delay : Nat)
    (sleeps : List Nat) : ExtractResult :=
  match remaining with
  | 0 => ⟨[], attempt, sleeps.reverse⟩
  | r + 1 =>
    match gen attempt with
    | .resourceExhausted => runExtract gen (attempt + 1) r (delay * 2) (delay :: sleeps)
    | .notFound => ⟨[], attempt + 1, sleeps.reverse⟩
    | .noCandidates => ⟨[], attempt + 1, sleeps.reverse⟩
    | .safetyBlock => ⟨[], attempt + 1, sleeps.reverse⟩
    | .emptyText => ⟨[], attempt + 1, sleeps.reverse⟩
    | .badJson => ⟨[], attempt + 1, sleeps.reverse⟩
    | .jsonList items =>
      match validateAll items with
      | some logs => ⟨logs, attempt + 1, sleeps.reverse⟩
      | none => ⟨[], attempt + 1, sleeps.reverse⟩

/-- Model of `extract_structured_data` (lines 278-358): `max_retries = 3`,
`delay = 5`.  `gen` gives the classifier's behaviour on each attempt (the
page content and url only shape the prompt, so they are folded into the
environment). -/
def extract_structured_data (gen : Nat → GenOutcome) : ExtractResult :=
  runExtract gen 0 3 5 []

/-- A row's natural key in `caregiver_actions`:
(action_type, communication_style, outcome_rating).  The AUTOINCREMENT id
plays no role in any claim. -/
abbrev Row := String × String × Int

/-- One `INSERT OR IGNORE` under the UNIQUE(action_type, communication_style,
outcome_rating) constraint of `setup_database` (lines 41-49): the row is
appended exactly when its key triple is absent. -/
def insertOrIgnore (table : List Row) (r : Row) : List Row :=
  if r ∈ table then table else table ++ [r]

/-- The bulk insert `cursor.executemany(INSERT OR IGNORE ...)` over the record list. -/
def insertMany (table : List Row) (rs : List Row) : List Row :=
  rs.foldl insertOrIgnore table

/-- Model of `save_data` (lines 360-387) against a table state.  Empty input returns
early with no count (`none`).  Otherwise the records are bulk-inserted and
the reported count is `conn.total_changes - initial_row_count`; on the
freshly opened connection `total_changes` equals the number of rows the
insert actually changed (ignored duplicates do not count), i.e. the row
count delta, while `initial_row_count` is the table's row count before the
insert (line 369). -/
def save_data (table : List Row) (data : List CaregiverActionLog) : List Row × Option Int :=
  match data with
  | [] => (table, none)
  | _ :: _ =>
    let initial_row_count : Int := table.length
    let records_to_insert : List Row :=
      data.map fun log => (log.action_type, log.communication_style, log.outcome_rating)
    let table2 := insertMany table records_to_insert
    let total_changes : Int := (table2.length : Int) - (table.length : Int)
    let inserted_count := total_changes - initial_row_count
    (table2, some inserted_count)

/-- The parts of a site profile that steer the crawl loop:
`link_keyword` (line 254) and the `ocr` flag (line 238).  The content
selector only shapes extracted text and lives in the environment. -/
structure SiteConfig where
  link_keyword : Option String
  ocr : Bool
deriving Repr

/-- The crawl's environment: the site behind the driver (DOM rendering and
OCR behaviour per URL) and the classifier's behaviour per page and attempt. -/
structure SiteEnv where
  dom : Url → DomFetch
  ocrPage : Url → OcrFetch
  classify : Url → Nat → GenOutcome

/-- Lines 238-242: fetch the current URL with the strategy the profile
selects.  The OCR strategy returns no links and, having no exception
handler, lets any fetch exception escape (`.error`); the DOM strategy never
raises (both handlers in `fetch_page_content_and_links` convert to
strings). -/
def fetchPage (env : SiteEnv) (cfg : SiteConfig) (url : Url) : Except String (String × List Url) :=
  if cfg.ocr then
    match env.ocrPage url with
    | .ok text => .ok (text, [])
    | .raises m => .error m
  else
    .ok (fetch_page_content_and_links env.dom url)

/-- Lines 252-262: when the profile declares a keyword, partition the links
into keyword-matching and other by one pass of appends, then concatenate
matches first. -/
def reorderLinks (link_keyword : Option String) (new_links : List Url) : List Url :=
  match link_keyword with
  | none => new_links
  | some k =>
    let p := new_links.foldl
      (fun acc link =>
        if substrOf k (urlString link) then (acc.1 ++ [link], acc.2)
        else (acc.1, acc.2 ++ [link]))
      ([], [])
    p.1 ++ p.2

/-- Lines 264-266: append each surviving link whose raw form is not in the
visited set (the check compares the raw link against normalized entries). -/
def newFrontier (cfg : SiteConfig) (visited : List Url) (new_links : List Url) : List Url :=
  (reorderLinks cfg.link_keyword new_links).filter fun link => decide (link ∉ visited)

/-- Observable outcome of one crawl run: the accumulated records, the
visited set, the fetch log (every URL passed to a driver fetch, in order),
the enqueue log (every link appended to the frontier at lines 264-266, in
order), the final page counter, the exception that escaped the loop (if
any), and the queue remaining at exit. -/
structure CrawlRun where
  data : List CaregiverActionLog
  visited : List Url
  fetched : List Url
  enqueued : List Url
  pages_crawled : Nat
  exn : Option String
  queue_left : List Url
deriving DecidableEq, Repr

/-- The `while` loop of `crawl_and_scrape_site` (lines 229-273).  Pop the
head; skip (without counting) when its normalized form is visited; otherwise
count the page, fetch it, mark it visited, skip "Error:"-prefixed content,
reorder and enqueue unvisited links, and append the extraction output.  An
OCR fetch exception escapes before the visited-set update, aborting the
run. -/
def crawlLoop (env : SiteEnv) (cfg : SiteConfig) (max_pages : Nat)
    (queue visited : List Url) (data : List CaregiverActionLog)
    (pages_crawled : Nat) (fetched enqueued : List Url) : CrawlRun :=
  match queue with
  | [] => ⟨data, visited, fetched, enqueued, pages_crawled, none, []⟩
  | current :: rest =>
    if _h : pages_crawled < max_pages then
      if normalizeUrl current ∈ visited then
        crawlLoop env cfg max_pages rest visited data pages_crawled fetched enqueued
      else
        match fetchPage env cfg current with
        | .error m =>
          ⟨data, visited, fetched ++ [current], enqueued, pages_crawled + 1, some m, rest⟩
        | .ok (content, new_links) =>
          if strStartsWith content "Error:" then
            crawlLoop env cfg max_pages rest (normalizeUrl current :: visited) data
              (pages_crawled + 1) (fetched ++ [current]) enqueued
          else
            crawlLoop env cfg max_pages
              (rest ++ newFrontier cfg (normalizeUrl current :: visited) new_links)
              (normalizeUrl current :: visited)
              (data ++ (extract_structured_data (env.classify current)).logs)
              (pages_crawled + 1) (fetched ++ [current])
              (enqueued ++ newFrontier cfg (normalizeUrl current :: visited) new_links)
    else ⟨data, visited, fetched, enqueued, pages_crawled, none, queue⟩
termination_by (max_pages - pages_crawled, queue.length)
decreasing_by
  · apply Prod.Lex.right
    simp
  · apply Prod.Lex.left
    omega
  · apply Prod.Lex.left
    omega

/-- Model of `crawl_and_scrape_site` (lines 199-276): run the loop from the seed URL
with empty visited set, empty data and a zero page counter. -/
def crawl_and_scrape_site (env : SiteEnv) (cfg : SiteConfig) (start_url : Url)
    (max_pages : Nat) : CrawlRun :=
  crawlLoop env cfg max_pages [start_url] [] [] 0 [] []


set_option maxHeartbeats 4000000 in
/-- Unfolding equation for `crawlLoop`, proved once from the generated
equation of the well-founded definition; all later reasoning rewrites with
this plain equation. -/
theorem crawlLoop_eq (env : SiteEnv) (cfg : SiteConfig) (max_pages : Nat)
    (queue visited : List Url) (data : List CaregiverActionLog)
    (pages_crawled : Nat) (fetched enqueued : List Url) :
    crawlLoop env cfg max_pages queue visited data pages_crawled fetched enqueued =
    match queue with
    | [] => ⟨data, visited, fetched, enqueued, pages_crawled, none, []⟩
    | current :: rest =>
      if _h : pages_crawled < max_pages then
        if normalizeUrl current ∈ visited then
          crawlLoop env cfg max_pages rest visited data pages_crawled fetched enqueued
        else
          match fetchPage env cfg current with
          | Except.error m =>
            ⟨data, visited, fetched ++ [current], enqueued, pages_crawled + 1, some m, rest⟩
          | Except.ok (content, new_links) =>
            if strStartsWith content "Error:" = true then
              crawlLoop env cfg max_pages rest (normalizeUrl current :: visited) data
                (pages_crawled + 1) (fetched ++ [current]) enqueued
            else
              crawlLoop env cfg max_pages
                (rest ++ newFrontier cfg (normalizeUrl current :: visited) new_links)
                (normalizeUrl current :: visited)
                (data ++ (extract_structured_data (env.classify current)).logs)
                (pages_crawled + 1) (fetched ++ [current])
                (enqueued ++ newFrontier cfg (normalizeUrl current :: visited) new_links)
      else ⟨data, visited, fetched, enqueued, pages_crawled, none, queue⟩ := by
  rw [crawlLoop.eq_def]

/-- Unfolding of the loop on an empty queue. -/
theorem crawlLoop_nil (env : SiteEnv) (cfg : SiteConfig) (m : Nat) (v : List Url)
    (d : List CaregiverActionLog) (p : Nat) (f e : List Url) :
    crawlLoop env cfg m [] v d p f e = ⟨d, v, f, e, p, none, []⟩ := by
  rw [crawlLoop_eq]

/-- Unfolding of the loop on a non-empty queue. -/
theorem crawlLoop_cons (env : SiteEnv) (cfg : SiteConfig) (m : Nat) (current : Url)
    (rest v : List Url) (d : List CaregiverActionLog) (p : Nat) (f e : List Url) :
    crawlLoop env cfg m (current :: rest) v d p f e =
      if _h : p < m then
        if normalizeUrl current ∈ v then
          crawlLoop env cfg m rest v d p f e
        else
          match fetchPage env cfg current with
          | Except.error msg =>
            ⟨d, v, f ++ [current], e, p + 1, some msg, rest⟩
          | Except.ok (content, new_links) =>
            if strStartsWith content "Error:" = true then
              crawlLoop env cfg m rest (normalizeUrl current :: v) d
                (p + 1) (f ++ [current]) e
            else
              crawlLoop env cfg m
                (rest ++ newFrontier cfg (normalizeUrl current :: v) new_links)
                (normalizeUrl current :: v)
                (d ++ (extract_structured_data (env.classify current)).logs)
                (p + 1) (f ++ [current])
                (e ++ newFrontier cfg (normalizeUrl current :: v) new_links)
      else ⟨d, v, f, e, p, none, current :: rest⟩ := by
  rw [crawlLoop_eq]

/-- Fuel-indexed mirror of `crawlLoop`, branch for branch; `none` means the
fuel ran out.  Being structural in the fuel, it evaluates by kernel
reduction and supports plain induction; `crawlFuel_sound` and
`crawlFuel_total` transfer its results to `crawlLoop`. -/
def crawlFuel (env : SiteEnv) (cfg : SiteConfig) (max_pages : Nat) :
    Nat → List Url → List Url → List CaregiverActionLog → Nat → List Url → List Url →
    Option CrawlRun
  | 0, _, _, _, _, _, _ => none
  | _ + 1, [], visited, data, pages_crawled, fetched, enqueued =>
    some ⟨data, visited, fetched, enqueued, pages_crawled, none, []⟩
  | fuel + 1, current :: rest, visited, data, pages_crawled, fetched, enqueued =>
    if pages_crawled < max_pages then
      if normalizeUrl current ∈ visited then
        crawlFuel env cfg max_pages fuel rest visited data pages_crawled fetched enqueued
      else
        match fetchPage env cfg current with
        | Except.error m =>
          some ⟨data, visited, fetched ++ [current], enqueued, pages_crawled + 1, some m, rest⟩
        | Except.ok (content, new_links) =>
          if strStartsWith content "Error:" then
            crawlFuel env cfg max_pages fuel rest (normalizeUrl current :: visited) data
              (pages_crawled + 1) (fetched ++ [current]) enqueued
          else
            crawlFuel env cfg max_pages fuel
              (rest ++ newFrontier cfg (normalizeUrl current :: visited) new_links)
              (normalizeUrl current :: visited)
              (data ++ (extract_structured_data (env.classify current)).logs)
              (pages_crawled + 1) (fetched ++ [current])
              (enqueued ++ newFrontier cfg (normalizeUrl current :: visited) new_links)
    else some ⟨data, visited, fetched, enqueued, pages_crawled, none, current :: rest⟩

/-- A fuel run that finishes computes exactly the `crawlLoop` value. -/
theorem crawlFuel_sound (env : SiteEnv) (cfg : SiteConfig) (m : Nat) :
    ∀ (fuel : Nat) (q v : List Url) (d : List CaregiverActionLog) (p : Nat)
      (f e : List Url) (r : CrawlRun),
      crawlFuel env cfg m fuel q v d p f e = some r →
      crawlLoop env cfg m q v d p f e = r := by
  intro fuel
  induction fuel with
  | zero =>
    intro q v d p f e r h
    exact absurd h (by simp [crawlFuel])
  | succ n ih =>
    intro q v d p f e r h
    cases q with
    | nil =>
      simp only [crawlFuel] at h
      rw [crawlLoop_nil]
      exact Option.some.inj h
    | cons current rest =>
      rw [crawlLoop_cons]
      by_cases hp : p < m
      · by_cases hv : normalizeUrl current ∈ v
        · simp only [crawlFuel, hp, hv, if_true, ite_true] at h
          rw [dif_pos hp, if_pos hv]
          exact ih _ _ _ _ _ _ _ h
        · cases hf : fetchPage env cfg current with
          | error msg =>
            simp only [crawlFuel, hp, hv, hf, if_true, ite_true, ite_false, if_false] at h
            rw [dif_pos hp, if_neg hv]
            simp only [hf]
            exact Option.some.inj h
          | ok pr =>
            obtain ⟨content, new_links⟩ := pr
            rw [dif_pos hp, if_neg hv]
            simp only [hf]
            by_cases hs : strStartsWith content "Error:" = true
            · simp only [crawlFuel, hp, hv, hf, hs, if_true, ite_true, ite_false, if_false] at h
              simp only [hs, if_true, ite_true]
              exact ih _ _ _ _ _ _ _ h
            · simp only [crawlFuel, hp, hv, hf, hs, if_true, ite_true, ite_false, if_false] at h
              simp only [hs, if_false, ite_false]
              exact ih _ _ _ _ _ _ _ h
      · simp only [crawlFuel, hp, ite_false, if_false] at h
        rw [dif_neg hp]
        exact Option.some.inj h

/-- Some amount of fuel always finishes the loop: the lexicographic measure
(remaining page budget, queue length) shrinks at every iteration. -/
theorem crawlFuel_total (env : SiteEnv) (cfg : SiteConfig) (m : Nat) :
    ∀ (n : Nat) (q v : List Url) (d : List CaregiverActionLog) (p : Nat) (f e : List Url),
      m - p ≤ n →
      ∃ fuel r, crawlFuel env cfg m fuel q v d p f e = some r := by
  intro n
  induction n with
  | zero =>
    intro q v d p f e hn
    have hp : ¬ p < m := by omega
    cases q with
    | nil => exact ⟨1, _, rfl⟩
    | cons current rest =>
      exact ⟨1, ⟨d, v, f, e, p, none, current :: rest⟩, by simp [crawlFuel, hp]⟩
  | succ n ihn =>
    intro q
    induction q with
    | nil => intro v d p f e _; exact ⟨1, _, rfl⟩
    | cons current rest ihq =>
      intro v d p f e hn
      by_cases hp : p < m
      · by_cases hv : normalizeUrl current ∈ v
        · obtain ⟨fuel, r, hr⟩ := ihq v d p f e hn
          exact ⟨fuel + 1, r, by simpa [crawlFuel, hp, hv] using hr⟩
        · cases hf : fetchPage env cfg current with
          | error msg =>
            exact ⟨1, ⟨d, v, f ++ [current], e, p + 1, some msg, rest⟩,
              by simp [crawlFuel, hp, hv, hf]⟩
          | ok pr =>
            obtain ⟨content, new_links⟩ := pr
            have hn2 : m - (p + 1) ≤ n := by omega
            by_cases hs : strStartsWith content "Error:" = true
            · obtain ⟨fuel, r, hr⟩ :=
                ihn rest (normalizeUrl current :: v) d (p + 1) (f ++ [current]) e hn2
              exact ⟨fuel + 1, r, by simpa [crawlFuel, hp, hv, hf, hs] using hr⟩
            · obtain ⟨fuel, r, hr⟩ :=
                ihn (rest ++ newFrontier cfg (normalizeUrl current :: v) new_links)
                  (normalizeUrl current :: v)
                  (d ++ (extract_structured_data (env.classify current)).logs)
                  (p + 1) (f ++ [current])
                  (e ++ newFrontier cfg (normalizeUrl current :: v) new_links) hn2
              exact ⟨fuel + 1, r, by simpa [crawlFuel, hp, hv, hf, hs] using hr⟩
      · exact ⟨1, ⟨d, v, f, e, p, none, current :: rest⟩, by simp [crawlFuel, hp]⟩

/-- Every crawl run is the value of a finished fuel run starting from the
initial state. -/
theorem crawl_via_fuel (env : SiteEnv) (cfg : SiteConfig) (s : Url) (m : Nat) :
    ∃ fuel, crawlFuel env cfg m fuel [s] [] [] 0 [] [] =
      some (crawl_and_scrape_site env cfg s m) := by
  obtain ⟨fuel, r, hr⟩ := crawlFuel_total env cfg m m [s] [] [] 0 [] [] (by omega)
  have h2 : crawl_and_scrape_site env cfg s m = r :=
    crawlFuel_sound env cfg m fuel _ _ _ _ _ _ _ hr
  exact ⟨fuel, by rw [h2]; exact hr⟩


/-- The single-pass append partition of lines 256-261 computes the two
filters, keeping relative order. -/
theorem partition_foldl (k : String) :
    ∀ (links t o : List Url),
      (links.foldl
        (fun acc link =>
          if substrOf k (urlString link) then (acc.1 ++ [link], acc.2)
          else (acc.1, acc.2 ++ [link]))
        (t, o)) =
      (t ++ links.filter (fun l => substrOf k (urlString l)),
       o ++ links.filter (fun l => !(substrOf k (urlString l)))) := by
  intro links
  induction links with
  | nil => intro t o; simp
  | cons a as ih =>
    intro t o
    by_cases h : substrOf k (urlString a)
    · simp [List.foldl_cons, h, ih]
    · simp [List.foldl_cons, h, ih]

theorem reorderLinks_some (k : String) (links : List Url) :
    reorderLinks (some k) links =
      links.filter (fun l => substrOf k (urlString l)) ++
      links.filter (fun l => !(substrOf k (urlString l))) := by
  simp [reorderLinks, partition_foldl]

theorem mem_reorderLinks {l : Url} {kw : Option String} {links : List Url} :
    l ∈ reorderLinks kw links → l ∈ links := by
  cases kw with
  | none => simp [reorderLinks]
  | some k =>
    rw [reorderLinks_some]
    intro h
    rcases List.mem_append.1 h with h2 | h2
    · exact (List.mem_filter.1 h2).1
    · exact (List.mem_filter.1 h2).1

theorem mem_newFrontier {l : Url} {cfg : SiteConfig} {v links : List Url} :
    l ∈ newFrontier cfg v links → l ∈ links ∧ l ∉ v := by
  intro h
  have h1 := List.mem_filter.1 h
  exact ⟨mem_reorderLinks h1.1, by simpa using h1.2⟩

theorem mem_extractLinks {l page : Url} {anchors : List Href} :
    l ∈ extractLinks page anchors → l.netloc = page.netloc ∧ linkIgnored l = false := by
  intro h
  have h1 := List.mem_filter.1 h
  have h2 := h1.2
  simp only [keepLink, Bool.and_eq_true, Bool.not_eq_true', beq_iff_eq] at h2
  exact ⟨h2.2, h2.1⟩

theorem fetchPage_ok_links {env : SiteEnv} {cfg : SiteConfig} {u : Url}
    {content : String} {links : List Url} :
    fetchPage env cfg u = Except.ok (content, links) →
    ∀ l ∈ links, l.netloc = u.netloc ∧ linkIgnored l = false := by
  intro h l hl
  by_cases hocr : cfg.ocr
  · simp only [fetchPage, hocr, if_true, ite_true] at h
    cases he : env.ocrPage u with
    | ok t => rw [he] at h; simp at h; rw [h.2] at hl; simp at hl
    | raises m => rw [he] at h; simp at h
  · simp only [fetchPage, hocr, if_false, ite_false, Bool.false_eq_true] at h
    unfold fetch_page_content_and_links at h
    cases hd : env.dom u with
    | ok c anchors =>
      rw [hd] at h
      simp only [Except.ok.injEq, Prod.mk.injEq] at h
      rw [← h.2] at hl
      exact mem_extractLinks hl
    | timeout => rw [hd] at h; simp at h; rw [h.2] at hl; simp at hl
    | failure m => rw [hd] at h; simp at h; rw [h.2] at hl; simp at hl

theorem fetchPage_dom {env : SiteEnv} {cfg : SiteConfig} (hocr : cfg.ocr = false) (u : Url) :
    fetchPage env cfg u = Except.ok (fetch_page_content_and_links env.dom u) := by
  simp [fetchPage, hocr]

/-- Fetch-call bound: starting from a page counter that matches the fetch
log and respects the budget, the loop fetches at most `m` pages in total,
keeps the counter equal to the fetch count, and, absent an escaped
exception, stops only on an empty queue or an exhausted budget. -/
theorem crawlFuel_bound (env : SiteEnv) (cfg : SiteConfig) (m : Nat) :
    ∀ (fuel : Nat) (q v : List Url) (d : List CaregiverActionLog) (p : Nat)
      (f e : List Url) (r : CrawlRun),
      crawlFuel env cfg m fuel q v d p f e = some r →
      f.length = p → p ≤ m →
      r.fetched.length ≤ m ∧ r.pages_crawled = r.fetched.length ∧
        (r.exn = none → r.queue_left = [] ∨ r.pages_crawled = m) := by
  intro fuel
  induction fuel with
  | zero =>
    intro q v d p f e r h
    exact absurd h (by simp [crawlFuel])
  | succ n ih =>
    intro q v d p f e r h hlen hpm
    cases q with
    | nil =>
      simp only [crawlFuel] at h
      rw [← Option.some.inj h]
      refine ⟨by simpa [hlen] using hpm, by simp [hlen], fun _ => Or.inl rfl⟩
    | cons current rest =>
      by_cases hp : p < m
      · by_cases hv : normalizeUrl current ∈ v
        · simp only [crawlFuel, hp, hv, if_true, ite_true] at h
          exact ih _ _ _ _ _ _ _ h hlen hpm
        · cases hf : fetchPage env cfg current with
          | error msg =>
            simp only [crawlFuel, hp, hv, hf, if_true, ite_true, ite_false, if_false] at h
            rw [← Option.some.inj h]
            refine ⟨by simp [hlen]; omega, by simp [hlen], fun hc => by simp at hc⟩
          | ok pr =>
            obtain ⟨content, new_links⟩ := pr
            by_cases hs : strStartsWith content "Error:" = true
            · simp only [crawlFuel, hp, hv, hf, hs, if_true, ite_true, ite_false, if_false] at h
              exact ih _ _ _ _ _ _ _ h (by simp [hlen]) (by omega)
            · simp only [crawlFuel, hp, hv, hf, hs, if_true, ite_true, ite_false, if_false] at h
              exact ih _ _ _ _ _ _ _ h (by simp [hlen]) (by omega)
      · simp only [crawlFuel, hp, ite_false, if_false] at h
        rw [← Option.some.inj h]
        refine ⟨by simpa [hlen] using hpm, by simp [hlen], fun _ => Or.inr (by simp; omega)⟩

/-- Domain scoping: if every queued URL has netloc `N` and the logs respect
`N`, the final logs do too, and enqueued links additionally survived the
ignore filter. -/
theorem crawlFuel_netloc (env : SiteEnv) (cfg : SiteConfig) (m : Nat) (N : String) :
    ∀ (fuel : Nat) (q v : List Url) (d : List CaregiverActionLog) (p : Nat)
      (f e : List Url) (r : CrawlRun),
      crawlFuel env cfg m fuel q v d p f e = some r →
      (∀ u ∈ q, u.netloc = N) →
      (∀ u ∈ e, u.netloc = N ∧ linkIgnored u = false) →
      (∀ u ∈ f, u.netloc = N) →
      (∀ u ∈ r.enqueued, u.netloc = N ∧ linkIgnored u = false) ∧
        (∀ u ∈ r.fetched, u.netloc = N) := by
  intro fuel
  induction fuel with
  | zero =>
    intro q v d p f e r h
    exact absurd h (by simp [crawlFuel])
  | succ n ih =>
    intro q v d p f e r h hq he hf2
    cases q with
    | nil =>
      simp only [crawlFuel] at h
      rw [← Option.some.inj h]
      exact ⟨he, hf2⟩
    | cons current rest =>
      have hcur : current.netloc = N := hq current (List.mem_cons_self _ _)
      have hrest : ∀ u ∈ rest, u.netloc = N := fun u hu => hq u (List.mem_cons_of_mem _ hu)
      by_cases hp : p < m
      · by_cases hv : normalizeUrl current ∈ v
        · simp only [crawlFuel, hp, hv, if_true, ite_true] at h
          exact ih _ _ _ _ _ _ _ h hrest he hf2
        · cases hf : fetchPage env cfg current with
          | error msg =>
            simp only [crawlFuel, hp, hv, hf, if_true, ite_true, ite_false, if_false] at h
            rw [← Option.some.inj h]
            refine ⟨he, fun u hu => ?_⟩
            rcases List.mem_append.1 hu with hu2 | hu2
            · exact hf2 u hu2
            · rw [List.mem_singleton.1 hu2]; exact hcur
          | ok pr =>
            obtain ⟨content, new_links⟩ := pr
            have hlinks : ∀ l ∈ newFrontier cfg (normalizeUrl current :: v) new_links,
                l.netloc = N ∧ linkIgnored l = false := by
              intro l hl
              have h1 := (mem_newFrontier hl).1
              have h2 := fetchPage_ok_links hf l h1
              exact ⟨h2.1.trans hcur, h2.2⟩
            by_cases hs : strStartsWith content "Error:" = true
            · simp only [crawlFuel, hp, hv, hf, hs, if_true, ite_true, ite_false, if_false] at h
              refine ih _ _ _ _ _ _ _ h hrest he fun u hu => ?_
              rcases List.mem_append.1 hu with hu2 | hu2
              · exact hf2 u hu2
              · rw [List.mem_singleton.1 hu2]; exact hcur
            · simp only [crawlFuel, hp, hv, hf, hs, if_true, ite_true, ite_false, if_false] at h
              refine ih _ _ _ _ _ _ _ h ?_ ?_ ?_
              · intro u hu
                rcases List.mem_append.1 hu with hu2 | hu2
                · exact hrest u hu2
                · exact (hlinks u hu2).1
              · intro u hu
                rcases List.mem_append.1 hu with hu2 | hu2
                · exact he u hu2
                · exact hlinks u hu2
              · intro u hu
                rcases List.mem_append.1 hu with hu2 | hu2
                · exact hf2 u hu2
                · rw [List.mem_singleton.1 hu2]; exact hcur
      · simp only [crawlFuel, hp, ite_false, if_false] at h
        rw [← Option.some.inj h]
        exact ⟨he, hf2⟩

/-- Fetch-level dedup: if the normalized forms of the fetch log are distinct
and all recorded in the visited set, they stay distinct: the visited-set
check at the top of the loop guards every fetch. -/
theorem crawlFuel_nodup (env : SiteEnv) (cfg : SiteConfig) (m : Nat) :
    ∀ (fuel : Nat) (q v : List Url) (d : List CaregiverActionLog) (p : Nat)
      (f e : List Url) (r : CrawlRun),
      crawlFuel env cfg m fuel q v d p f e = some r →
      (f.map normalizeUrl).Nodup →
      (∀ u ∈ f, normalizeUrl u ∈ v) →
      (r.fetched.map normalizeUrl).Nodup := by
  intro fuel
  induction fuel with
  | zero =>
    intro q v d p f e r h
    exact absurd h (by simp [crawlFuel])
  | succ n ih =>
    intro q v d p f e r h hnd hsub
    cases q with
    | nil =>
      simp only [crawlFuel] at h
      rw [← Option.some.inj h]
      exact hnd
    | cons current rest =>
      by_cases hp : p < m
      · by_cases hv : normalizeUrl current ∈ v
        · simp only [crawlFuel, hp, hv, if_true, ite_true] at h
          exact ih _ _ _ _ _ _ _ h hnd hsub
        · have hnotin : normalizeUrl current ∉ f.map normalizeUrl := by
            intro hc
            obtain ⟨u, hu, hu2⟩ := List.mem_map.1 hc
            exact hv (hu2 ▸ hsub u hu)
          have hnd2 : ((f ++ [current]).map normalizeUrl).Nodup := by
            rw [List.map_append]
            simp [List.nodup_append, hnd, hnotin]
          have hsub2 : ∀ u ∈ f ++ [current], normalizeUrl u ∈ normalizeUrl current :: v := by
            intro u hu
            rcases List.mem_append.1 hu with hu2 | hu2
            · exact List.mem_cons_of_mem _ (hsub u hu2)
            · rw [List.mem_singleton.1 hu2]; exact List.mem_cons_self _ _
          cases hf : fetchPage env cfg current with
          | error msg =>
            simp only [crawlFuel, hp, hv, hf, if_true, ite_true, ite_false, if_false] at h
            rw [← Option.some.inj h]
            exact hnd2
          | ok pr =>
            obtain ⟨content, new_links⟩ := pr
            by_cases hs : strStartsWith content "Error:" = true
            · simp only [crawlFuel, hp, hv, hf, hs, if_true, ite_true, ite_false, if_false] at h
              exact ih _ _ _ _ _ _ _ h hnd2 hsub2
            · simp only [crawlFuel, hp, hv, hf, hs, if_true, ite_true, ite_false, if_false] at h
              exact ih _ _ _ _ _ _ _ h hnd2 hsub2
      · simp only [crawlFuel, hp, ite_false, if_false] at h
        rw [← Option.some.inj h]
        exact hnd

/-- Under the DOM strategy no exception ever escapes the loop. -/
theorem crawlFuel_no_exn (env : SiteEnv) (cfg : SiteConfig) (m : Nat)
    (hocr : cfg.ocr = false) :
    ∀ (fuel : Nat) (q v : List Url) (d : List CaregiverActionLog) (p : Nat)
      (f e : List Url) (r : CrawlRun),
      crawlFuel env cfg m fuel q v d p f e = some r →
      r.exn = none := by
  intro fuel
  induction fuel with
  | zero =>
    intro q v d p f e r h
    exact absurd h (by simp [crawlFuel])
  | succ n ih =>
    intro q v d p f e r h
    cases q with
    | nil =>
      simp only [crawlFuel] at h
      rw [← Option.some.inj h]
    | cons current rest =>
      by_cases hp : p < m
      · by_cases hv : normalizeUrl current ∈ v
        · simp only [crawlFuel, hp, hv, if_true, ite_true] at h
          exact ih _ _ _ _ _ _ _ h
        · cases hf : fetchPage env cfg current with
          | error msg =>
            rw [fetchPage_dom hocr current] at hf
            exact absurd hf (by simp)
          | ok pr =>
            obtain ⟨content, new_links⟩ := pr
            by_cases hs : strStartsWith content "Error:" = true
            · simp only [crawlFuel, hp, hv, hf, hs, if_true, ite_true, ite_false, if_false] at h
              exact ih _ _ _ _ _ _ _ h
            · simp only [crawlFuel, hp, hv, hf, hs, if_true, ite_true, ite_false, if_false] at h
              exact ih _ _ _ _ _ _ _ h
      · simp only [crawlFuel, hp, ite_false, if_false] at h
        rw [← Option.some.inj h]

/-- Inserting a row whose natural key is already present changes nothing. -/
theorem insertOrIgnore_of_mem {t : List Row} {r : Row} (h : r ∈ t) :
    insertOrIgnore t r = t := by
  simp [insertOrIgnore, h]

theorem mem_insertOrIgnore_left {t : List Row} {r2 : Row} (r : Row) (h : r2 ∈ t) :
    r2 ∈ insertOrIgnore t r := by
  by_cases hr : r ∈ t <;> simp [insertOrIgnore, hr, h]

theorem mem_insertOrIgnore_self (t : List Row) (r : Row) : r ∈ insertOrIgnore t r := by
  by_cases hr : r ∈ t <;> simp [insertOrIgnore, hr]

theorem mem_insertMany_left : ∀ (rs t : List Row) (r2 : Row), r2 ∈ t → r2 ∈ insertMany t rs := by
  intro rs
  induction rs with
  | nil => intro t r2 h; exact h
  | cons a as ih =>
    intro t r2 h
    exact ih _ _ (mem_insertOrIgnore_left a h)

theorem mem_insertMany_self : ∀ (rs t : List Row) (r : Row), r ∈ rs → r ∈ insertMany t rs := by
  intro rs
  induction rs with
  | nil => intro t r h; simp at h
  | cons a as ih =>
    intro t r h
    rcases List.mem_cons.1 h with h2 | h2
    · rw [h2]
      exact mem_insertMany_left as _ a (mem_insertOrIgnore_self t a)
    · exact ih _ _ h2

/-- A bulk insert of rows that are all present already is the identity. -/
theorem insertMany_of_subset : ∀ (rs t : List Row), (∀ r ∈ rs, r ∈ t) → insertMany t rs = t := by
  intro rs
  induction rs with
  | nil => intro t _; rfl
  | cons a as ih =>
    intro t h
    have ha : insertOrIgnore t a = t := insertOrIgnore_of_mem (h a (List.mem_cons_self _ _))
    show insertMany (insertOrIgnore t a) as = t
    rw [ha]
    exact ih t fun r hr => h r (List.mem_cons_of_mem _ hr)

-- Concrete crawl environments used for counterexamples and witnesses.

/-- Seed page of the demonstration site. -/
def demoSeed : Url := ⟨"http", "ex.com", "/start", "", ""⟩

/-- A path-less URL variant carrying a query string. -/
def demoQ1 : Url := ⟨"http", "ex.com", "", "a=1", ""⟩

/-- A second path-less variant of the same specified-normalized URL. -/
def demoQ2 : Url := ⟨"http", "ex.com", "", "a=2", ""⟩

/-- Demonstration site: the seed links to the two query variants, which have
no further links. -/
def demoDom (u : Url) : DomFetch :=
  if u = demoSeed then .ok "page text" [.abs demoQ1, .abs demoQ2]
  else if u = demoQ1 then .ok "page text" []
  else if u = demoQ2 then .ok "page text" []
  else .timeout

def demoEnv : SiteEnv := ⟨demoDom, fun _ => .raises "no ocr", fun _ _ => .badJson⟩

/-- Generic profile: no keyword, DOM strategy. -/
def demoCfg : SiteConfig := ⟨none, false⟩

/-- The demonstration run, computed by the fuel mirror. -/
theorem demo_run :
    crawl_and_scrape_site demoEnv demoCfg demoSeed 3 =
    ⟨[], [demoQ2, demoQ1, demoSeed], [demoSeed, demoQ1, demoQ2], [demoQ1, demoQ2], 3, none, []⟩ :=
  crawlFuel_sound demoEnv demoCfg 3 10 [demoSeed] [] [] 0 [] [] _ rfl

/-- OCR site whose fetch raises. -/
def ocrEnv : SiteEnv := ⟨fun _ => .timeout, fun _ => .raises "boom", fun _ _ => .badJson⟩

def ocrCfg : SiteConfig := ⟨none, true⟩

theorem ocr_run :
    crawl_and_scrape_site ocrEnv ocrCfg demoSeed 5 =
    ⟨[], [], [demoSeed], [], 1, some "boom", []⟩ :=
  crawlFuel_sound ocrEnv ocrCfg 5 2 [demoSeed] [] [] 0 [] [] _ rfl

/-- Seed with a non-empty path for the re-queue counterexample. -/
def reqSeed : Url := ⟨"http", "ex.com", "/p", "", ""⟩

/-- Query variant of `reqSeed`: same normalized form. -/
def reqLink : Url := ⟨"http", "ex.com", "/p", "q=1", ""⟩

def reqDom (u : Url) : DomFetch :=
  if u = reqSeed then .ok "t" [.abs reqLink] else .ok "t" []

def reqEnv : SiteEnv := ⟨reqDom, fun _ => .raises "no ocr", fun _ _ => .badJson⟩

theorem req_run :
    crawl_and_scrape_site reqEnv demoCfg reqSeed 2 =
    ⟨[], [reqSeed], [reqSeed], [reqLink], 1, none, []⟩ :=
  crawlFuel_sound reqEnv demoCfg 2 3 [reqSeed] [] [] 0 [] [] _ rfl

/-- C1: the claim "no normalized URL (query and fragment stripped) is
fetched more than once" fails on the code: for a URL with an empty path the
dedup key `urljoin(url, urlparse(url).path)` is the unchanged URL, so the
two query variants of `http://ex.com` are both fetched — the fetch log maps
under the specified normalization to a list containing the same normalized
URL twice. -/
theorem crawl_fetches_specNormalized_twice :
    (((crawl_and_scrape_site demoEnv demoCfg demoSeed 3).fetched.map specNormalize).count
      ⟨"http", "ex.com", "", "", ""⟩ = 2) ∧
    (crawl_and_scrape_site demoEnv demoCfg demoSeed 3).fetched.length = 3 := by
  rw [demo_run]
  exact ⟨rfl, rfl⟩

/-- C2: the crawl always terminates with at most `max_pages` fetch calls
(the page counter equals the fetch count), and, unless an exception escaped,
the loop stopped because the queue emptied or the counter reached
`max_pages`. -/
theorem crawl_bounded (env : SiteEnv) (cfg : SiteConfig) (s : Url) (m : Nat) :
    (crawl_and_scrape_site env cfg s m).fetched.length ≤ m ∧
    (crawl_and_scrape_site env cfg s m).pages_crawled =
      (crawl_and_scrape_site env cfg s m).fetched.length ∧
    ((crawl_and_scrape_site env cfg s m).exn = none →
      (crawl_and_scrape_site env cfg s m).queue_left = [] ∨
      (crawl_and_scrape_site env cfg s m).pages_crawled = m) := by
  obtain ⟨fuel, hr⟩ := crawl_via_fuel env cfg s m
  exact crawlFuel_bound env cfg m fuel _ _ _ _ _ _ _ hr rfl (by omega)

/-- Witness for C2 at a concrete run. -/
theorem crawl_bounded_witness :
    (crawl_and_scrape_site demoEnv demoCfg demoSeed 3).queue_left = [] ∨
    (crawl_and_scrape_site demoEnv demoCfg demoSeed 3).pages_crawled = 3 :=
  (crawl_bounded demoEnv demoCfg demoSeed 3).2.2 (by rw [demo_run])

/-- C3: every link appended to the frontier has the seed's netloc and
survived the ignore-pattern filter, and every fetched page has the seed's
netloc. -/
theorem crawl_domain_scoping (env : SiteEnv) (cfg : SiteConfig) (s : Url) (m : Nat) :
    (∀ u ∈ (crawl_and_scrape_site env cfg s m).enqueued,
      u.netloc = s.netloc ∧ linkIgnored u = false) ∧
    (∀ u ∈ (crawl_and_scrape_site env cfg s m).fetched, u.netloc = s.netloc) := by
  obtain ⟨fuel, hr⟩ := crawl_via_fuel env cfg s m
  exact crawlFuel_netloc env cfg m s.netloc fuel _ _ _ _ _ _ _ hr
    (by intro u hu; rw [List.mem_singleton.1 hu]) (by intro u hu; simp at hu)
    (by intro u hu; simp at hu)

/-- Witness for C3 at a concrete enqueued link. -/
theorem crawl_domain_scoping_witness :
    demoQ1.netloc = demoSeed.netloc ∧ linkIgnored demoQ1 = false :=
  (crawl_domain_scoping demoEnv demoCfg demoSeed 3).1 demoQ1
    (by rw [demo_run]; exact List.mem_cons_self _ _)

/-- C4 counterexample: under the OCR strategy a fetch exception escapes
`crawl_and_scrape_site` and aborts the run (the OCR fetcher has no handler),
so fetch errors are not always recovered locally. -/
theorem crawl_ocr_fetch_error_escapes :
    (crawl_and_scrape_site ocrEnv ocrCfg demoSeed 5).exn = some "boom" ∧
    (crawl_and_scrape_site ocrEnv ocrCfg demoSeed 5).pages_crawled = 1 := by
  rw [ocr_run]
  exact ⟨rfl, rfl⟩

/-- C4 amended: under the DOM strategy no fetch or extraction error escapes
the loop — every run completes without an exception. -/
theorem crawl_dom_never_aborts (env : SiteEnv) (cfg : SiteConfig) (s : Url) (m : Nat)
    (hocr : cfg.ocr = false) :
    (crawl_and_scrape_site env cfg s m).exn = none := by
  obtain ⟨fuel, hr⟩ := crawl_via_fuel env cfg s m
  exact crawlFuel_no_exn env cfg m hocr fuel _ _ _ _ _ _ _ hr

/-- Witness for the amended C4 at a concrete DOM run. -/
theorem crawl_dom_never_aborts_witness :
    (crawl_and_scrape_site demoEnv demoCfg demoSeed 3).exn = none :=
  crawl_dom_never_aborts demoEnv demoCfg demoSeed 3 rfl

/-- C5: a record with `outcome_rating = 7`, outside the declared 1..5
bound, is accepted by the extractor (the pydantic field carries the bound
only in its description), while a record missing the score field is
rejected with an empty batch — refuting the claim that out-of-bound scores
are rejected. -/
theorem extract_out_of_schema_score :
    (extract_structured_data (fun _ => GenOutcome.jsonList
      [[("action_type", JsonVal.str "comfort"),
        ("communication_style", JsonVal.str "gentle"),
        ("outcome_rating", JsonVal.num 7)]])).logs = [⟨"comfort", "gentle", 7⟩] ∧
    (extract_structured_data (fun _ => GenOutcome.jsonList
      [[("action_type", JsonVal.str "comfort"),
        ("communication_style", JsonVal.str "gentle")]])).logs = [] :=
  ⟨rfl, rfl⟩

/-- C6: with a non-empty table, `save_data` computes
`total_changes - initial_row_count`, which under-reports the rows actually
inserted: here one genuinely new row is inserted but the reported count is
0. -/
theorem save_data_misreports_count :
    save_data [("soothe", "calm", 3)] [⟨"praise", "warm", 4⟩] =
      ([("soothe", "calm", 3), ("praise", "warm", 4)], some 0) :=
  rfl

/-- C7: saving the same record list twice leaves the table exactly as one
save does — the UNIQUE natural key plus INSERT OR IGNORE makes persistence
idempotent. -/
theorem save_data_idempotent (t : List Row) (d : List CaregiverActionLog) :
    (save_data (save_data t d).1 d).1 = (save_data t d).1 := by
  cases d with
  | nil => rfl
  | cons a as =>
    simp only [save_data]
    exact insertMany_of_subset _ _ fun r hr => mem_insertMany_self _ _ _ hr

/-- C8: a classifier that raises a rate-limit error on every attempt makes
the extractor perform exactly 3 attempts with sleeps of 5, 10 and 20
seconds, then return an empty list. -/
theorem extract_rate_limit_three_attempts (gen : Nat → GenOutcome)
    (h : ∀ n, gen n = GenOutcome.resourceExhausted) :
    extract_structured_data gen = ⟨[], 3, [5, 10, 20]⟩ := by
  simp [extract_structured_data, runExtract, h]

/-- Witness for C8 with the constant rate-limited classifier. -/
theorem extract_rate_limit_three_attempts_witness :
    extract_structured_data (fun _ => GenOutcome.resourceExhausted) = ⟨[], 3, [5, 10, 20]⟩ :=
  extract_rate_limit_three_attempts _ fun _ => rfl

/-- C9 counterexample: the enqueue check compares the raw link against the
visited set, so a link whose normalized form (but not the link itself) is
visited is still appended: after fetching the seed, its query variant is
enqueued although its normalized form is the visited seed; the variant is
nevertheless never fetched. -/
theorem crawl_requeues_visited_normalized :
    (crawl_and_scrape_site reqEnv demoCfg reqSeed 2).enqueued = [reqLink] ∧
    normalizeUrl reqLink ∈ (crawl_and_scrape_site reqEnv demoCfg reqSeed 2).visited ∧
    (crawl_and_scrape_site reqEnv demoCfg reqSeed 2).fetched = [reqSeed] := by
  rw [req_run]
  exact ⟨rfl, by decide, rfl⟩

/-- C9 amended: re-queued duplicates are discarded at pop time — the fetch
log never contains two URLs with the same code-normalized form. -/
theorem crawl_normalized_fetch_nodup (env : SiteEnv) (cfg : SiteConfig) (s : Url) (m : Nat) :
    ((crawl_and_scrape_site env cfg s m).fetched.map normalizeUrl).Nodup := by
  obtain ⟨fuel, hr⟩ := crawl_via_fuel env cfg s m
  exact crawlFuel_nodup env cfg m fuel _ _ _ _ _ _ _ hr (by simp) (by simp)

/-- C10: with a declared keyword the surviving links are reordered as a
stable partition: keyword-matching links first, then the rest, relative
order preserved within each group. -/
theorem crawl_keyword_ordering (k : String) (links : List Url) :
    reorderLinks (some k) links =
      links.filter (fun l => substrOf k (urlString l)) ++
      links.filter (fun l => !(substrOf k (urlString l))) :=
  reorderLinks_some k links
